import Mathlib

/-!
Verification of the TOTPGen repository (Python) against its natural-language
specification.  The Python source is shallowly embedded: bytes are `List Nat`
with each element `< 256`, machine words are `Nat` reduced `% 2 ^ 32` where
the source relies on 32-bit wrap-around, wall-clock time is `ℚ` (Python
`time.time()` returns a real-valued timestamp), and fallible Python code
(code that raises) returns `Option`.
-/

/-- Rotate a 32-bit word left by `n` bits. -/
def rotl32 (n x : Nat) : Nat :=
  ((x <<< n) % 2 ^ 32) ||| (x >>> (32 - n))

/-- Big-endian bytes of `n`, `len` bytes wide.  This is the semantics of
Python's `value.to_bytes(length=len, byteorder="big")` once the length check
has passed. -/
def natToBytesBE (len n : Nat) : List Nat :=
  (List.range len).map fun i => (n >>> (8 * (len - 1 - i))) &&& 255

/-- The four big-endian bytes of a 32-bit word. -/
def wordToBytesBE (w : Nat) : List Nat :=
  [(w >>> 24) &&& 255, (w >>> 16) &&& 255, (w >>> 8) &&& 255, w &&& 255]

/-- Combine four bytes (big-endian) into one 32-bit word. -/
def bytesToWordBE (a b c d : Nat) : Nat :=
  (a <<< 24) ||| (b <<< 16) ||| (c <<< 8) ||| d

/-- Split a byte list into the 16 big-endian 32-bit words of one SHA-1 block. -/
def blockWords : List Nat → List Nat
  | a :: b :: c :: d :: rest => bytesToWordBE a b c d :: blockWords rest
  | _ => []

/-- Split a list into chunks of 64 elements (SHA-1 blocks). -/
def chunks64 : List Nat → List (List Nat)
  | [] => []
  | x :: xs => ((x :: xs).take 64) :: chunks64 ((x :: xs).drop 64)
termination_by l => l.length
decreasing_by simp [List.length_drop]; omega

/-- SHA-1 message padding: append `0x80`, zero bytes up to 56 mod 64, then the
original bit length as 8 big-endian bytes. -/
def sha1Pad (msg : List Nat) : List Nat :=
  let l := msg.length
  let z := (119 - (l % 64)) % 64
  msg ++ [0x80] ++ List.replicate z 0 ++ natToBytesBE 8 (8 * l)

/-- Extend the 16 block words with `k` further schedule words
(`w[i] = rotl1 (w[i-3] xor w[i-8] xor w[i-14] xor w[i-16])`). -/
def sha1Extend : List Nat → Nat → List Nat
  | ws, 0 => ws
  | ws, k + 1 =>
      let n := ws.length
      let w := rotl32 1 (ws.getD (n - 3) 0 ^^^ ws.getD (n - 8) 0 ^^^
        ws.getD (n - 14) 0 ^^^ ws.getD (n - 16) 0)
      sha1Extend (ws ++ [w]) k

/-- The SHA-1 round function for round `t`. -/
def sha1F (t b c d : Nat) : Nat :=
  if t < 20 then (b &&& c) ||| ((b ^^^ 0xFFFFFFFF) &&& d)
  else if t < 40 then b ^^^ c ^^^ d
  else if t < 60 then (b &&& c) ||| (b &&& d) ||| (c &&& d)
  else b ^^^ c ^^^ d

/-- The SHA-1 round constant for round `t`. -/
def sha1K (t : Nat) : Nat :=
  if t < 20 then 0x5A827999
  else if t < 40 then 0x6ED9EBA1
  else if t < 60 then 0x8F1BBCDC
  else 0xCA62C1D6

/-- Run the 80 SHA-1 rounds over the schedule words. -/
def sha1Rounds : List Nat → Nat → Nat × Nat × Nat × Nat × Nat → Nat × Nat × Nat × Nat × Nat
  | [], _, st => st
  | w :: ws, t, (a, b, c, d, e) =>
      let temp := (rotl32 5 a + sha1F t b c d + e + sha1K t + w) % 2 ^ 32
      sha1Rounds ws (t + 1) (temp, a, rotl32 30 b, c, d)

/-- Compress one 64-byte block into the running SHA-1 state. -/
def sha1Compress (h : Nat × Nat × Nat × Nat × Nat) (block : List Nat) :
    Nat × Nat × Nat × Nat × Nat :=
  let ws := sha1Extend (blockWords block) 64
  match h, sha1Rounds ws 0 h with
  | (h0, h1, h2, h3, h4), (a, b, c, d, e) =>
      ((h0 + a) % 2 ^ 32, (h1 + b) % 2 ^ 32, (h2 + c) % 2 ^ 32,
       (h3 + d) % 2 ^ 32, (h4 + e) % 2 ^ 32)

/-- SHA-1 of a byte list: the 20-byte digest. -/
def sha1 (msg : List Nat) : List Nat :=
  match (chunks64 (sha1Pad msg)).foldl sha1Compress
      (0x67452301, 0xEFCDAB89, 0x98BADCFE, 0x10325476, 0xC3D2E1F0) with
  | (h0, h1, h2, h3, h4) =>
      wordToBytesBE h0 ++ wordToBytesBE h1 ++ wordToBytesBE h2 ++
      wordToBytesBE h3 ++ wordToBytesBE h4

/-- HMAC-SHA1 (RFC 2104) over byte lists, block size 64. -/
def hmac_sha1 (key msg : List Nat) : List Nat :=
  let k0 := if 64 < key.length then sha1 key else key
  let k := k0 ++ List.replicate (64 - k0.length) 0
  let ipad := k.map (· ^^^ 0x36)
  let opad := k.map (· ^^^ 0x5C)
  sha1 (opad ++ sha1 (ipad ++ msg))

/-- The decimal digit character for `n < 10`. -/
def digitChar10 : Nat → Char
  | 0 => '0' | 1 => '1' | 2 => '2' | 3 => '3' | 4 => '4'
  | 5 => '5' | 6 => '6' | 7 => '7' | 8 => '8' | _ => '9'

/-- Decimal digit characters of `n`, most significant first: the semantics of
Python's `str(n)` for a non-negative integer. -/
def pyStrNatAux (n : Nat) : List Char :=
  if h : n < 10 then [digitChar10 n]
  else pyStrNatAux (n / 10) ++ [digitChar10 (n % 10)]
termination_by n
decreasing_by exact Nat.div_lt_self (by omega) (by omega)

/-- Python's `str(n)` for a non-negative integer `n`. -/
def pyStrNat (n : Nat) : String :=
  String.mk (pyStrNatAux n)

/-- Python's `s.zfill(w)`: left-pad with `'0'` to width at least `w`
(for strings not starting with a sign character). -/
def zfill (s : String) (w : Nat) : String :=
  String.mk (List.replicate (w - s.length) '0' ++ s.data)

/-- Parse a decimal digit string back to a number (the spec's "parses back"). -/
def parseDec (s : String) : Nat :=
  s.data.foldl (fun a c => 10 * a + (c.toNat - 48)) 0

/-- Python's `value.to_bytes(length=8, byteorder="big")` guarded exactly as
`TOTP.__custom_pack_q` guards it: a `ValueError` for negative input (modelled
as `none`), and `to_bytes` itself raises `OverflowError` at `2 ^ 64`. -/
def custom_pack_q (value : Int) : Option (List Nat) :=
  if value < 0 then none
  else if value < 2 ^ 64 then some (natToBytesBE 8 value.toNat)
  else none

/-- The HOTP computation of `TOTP.__set_hotp` (src/totp.py) from the decoded
secret bytes on: pack the counter, HMAC-SHA1, dynamic truncation with the
source's `& 255` masks and `hmac_digest[-1]` indexing, then
`str(truncated % 10 ** digits).zfill(digits)`. -/
def set_hotp (secretBytes : List Nat) (counter : Int) (digits : Nat) : Option String :=
  match custom_pack_q counter with
  | none => none
  | some counterBytes =>
      let hmac_digest := hmac_sha1 secretBytes counterBytes
      let offset := hmac_digest.getLastD 0 &&& 15
      let truncated :=
        ((hmac_digest.getD offset 0 &&& 127) <<< 24) |||
        ((hmac_digest.getD (offset + 1) 0 &&& 255) <<< 16) |||
        ((hmac_digest.getD (offset + 2) 0 &&& 255) <<< 8) |||
        (hmac_digest.getD (offset + 3) 0 &&& 255)
      some (zfill (pyStrNat (truncated % 10 ^ digits)) digits)

/-- The HOTP algorithm exactly as the claim words it: counter as 8 big-endian
bytes, `digest = HMAC-SHA1(secretBytes, counterBytes)`,
`offset = digest[19] & 0x0F`, the four-byte truncation, and the decimal string
of `truncated mod 10 ^ digits` left-padded with `'0'` to `digits` characters. -/
def hotpSpec (secretBytes : List Nat) (counter : Int) (digits : Nat) : String :=
  let counterBytes := natToBytesBE 8 counter.toNat
  let digest := hmac_sha1 secretBytes counterBytes
  let offset := digest.getD 19 0 &&& 0x0F
  let truncated :=
    ((digest.getD offset 0 &&& 0x7F) <<< 24) |||
    (digest.getD (offset + 1) 0 <<< 16) |||
    (digest.getD (offset + 2) 0 <<< 8) |||
    digest.getD (offset + 3) 0
  zfill (pyStrNat (truncated % 10 ^ digits)) digits

/-- The RFC 4648 Base32 alphabet, as in src/main.py. -/
def BASE32_ALPHABET : List Char := "ABCDEFGHIJKLMNOPQRSTUVWXYZ234567".toList

/-- `BASE32_ALPHABET.index(c)`: the position of `c`, or `none` for the
`ValueError` Python raises when `c` is absent. -/
def b32index (c : Char) : Option Nat :=
  BASE32_ALPHABET.indexOf? c

/-- Python's `str.upper()` restricted to ASCII (all inputs in this program are
ASCII; on ASCII the two agree). -/
def pyUpper (cs : List Char) : List Char :=
  cs.map Char.toUpper

/-- Python whitespace characters stripped by `str.strip()`: CPython's full
`str.isspace()` table — `\t\n\v\f\r` (9–13), the separators 28–31, space,
NEL (133), NBSP (160), and the Unicode space code points. -/
def pyIsSpace (c : Char) : Bool :=
  decide ((9 ≤ c.toNat ∧ c.toNat ≤ 13) ∨ (28 ≤ c.toNat ∧ c.toNat ≤ 32) ∨
    c.toNat = 133 ∨ c.toNat = 160 ∨ c.toNat = 0x1680 ∨
    (0x2000 ≤ c.toNat ∧ c.toNat ≤ 0x200A) ∨ c.toNat = 0x2028 ∨ c.toNat = 0x2029 ∨
    c.toNat = 0x202F ∨ c.toNat = 0x205F ∨ c.toNat = 0x3000)

/-- Python's `str.strip()`: drop leading and trailing whitespace. -/
def pyStrip (cs : List Char) : List Char :=
  ((cs.dropWhile pyIsSpace).reverse.dropWhile pyIsSpace).reverse

/-- Split a character list into chunks of 8 (the decoder's
`for i in range(0, len(encoded_str), 8)` loop); a shorter final remainder
stays one chunk, as Python slicing leaves it. -/
def chunks8 : List Char → List (List Char)
  | [] => []
  | c1 :: c2 :: c3 :: c4 :: c5 :: c6 :: c7 :: c8 :: rest =>
      [c1, c2, c3, c4, c5, c6, c7, c8] :: chunks8 rest
  | l => [l]

/-- The character loop of one 8-character chunk in `TOTP.__b32decode`
(src/main.py), carrying the `bits` accumulator: `'='` adds 5 to the
accumulated *value* (`bits += 5`), any other character must be in the
alphabet (`bits = (bits << 5) | index`), otherwise Python raises
`ValueError`. -/
def b32chunkBitsAux : List Char → Nat → Option Nat
  | [], bits => some bits
  | c :: rest, bits =>
      if c = '=' then b32chunkBitsAux rest (bits + 5)
      else
        match b32index c with
        | none => none
        | some v => b32chunkBitsAux rest ((bits <<< 5) ||| v)

/-- The bit accumulator of one chunk, started at 0 as in the source. -/
def b32chunkBits (chunk : List Char) : Option Nat :=
  b32chunkBitsAux chunk 0

/-- The byte-emission loop of `TOTP.__b32decode`: for `j in range(5)` append
`(bits >> (8 * (4 - j))) & 0xFF` only when that byte is non-zero. -/
def b32chunkBytes (bits : Nat) : List Nat :=
  (List.range 5).filterMap fun j =>
    let b := (bits >>> (8 * (4 - j))) &&& 255
    if b = 0 then none else some b

/-- The chunk loop of `TOTP.__b32decode`: decode each 8-character chunk in
order and append its emitted bytes to the output. -/
def b32decodeChunks : List (List Char) → Option (List Nat)
  | [] => some []
  | ch :: rest =>
      match b32chunkBits ch with
      | none => none
      | some bits =>
          match b32decodeChunks rest with
          | none => none
          | some tail => some (b32chunkBytes bits ++ tail)

/-- `TOTP.__b32decode` from src/main.py: upper-case and strip the input, pad
with `'='` to a multiple of 8, then process 8-character chunks; `none` models
the `ValueError` raised on a character outside the alphabet. -/
def b32decode_main (s : String) : Option (List Nat) :=
  let cs := pyStrip (pyUpper s.toList)
  let padded := cs ++ List.replicate ((8 - cs.length % 8) % 8) '='
  b32decodeChunks (chunks8 padded)

/-- Modelled from the spec: the reference RFC 4648 Base32 *encoder* (the
repository has no encoder; the spec's round-trip property is stated "via a
reference encoder").  Emit one alphabet character per 5 bits, zero-padding the
final partial group, then pad with `'='` to a multiple of 8 characters. -/
def b32encodeRef (b : List Nat) : String :=
  let nbits := 8 * b.length
  let bits := b.foldl (fun acc x => acc * 256 + x % 256) 0
  let nchars := (nbits + 4) / 5
  let bits' := bits <<< (5 * nchars - nbits)
  let chars := (List.range nchars).map fun i =>
    BASE32_ALPHABET.getD ((bits' >>> (5 * (nchars - 1 - i))) &&& 31) 'A'
  String.mk (chars ++ List.replicate ((8 - nchars % 8) % 8) '=')

/-- Modelled from the spec: the standard-library Base32 decoder
(`base64.b32decode(s, casefold=True)`) used by `TOTP.__set_hotp` in
src/totp.py — the repository delegates this to Python's `base64` module.
Case-folds, requires a length that is a multiple of 8, requires `'='` only as
trailing padding, accumulates 5 bits per symbol and emits a byte whenever 8
bits are available, dropping partial trailing bits; `none` models
`binascii.Error`. -/
def b32decodeStd (s : String) : Option (List Nat) :=
  let up := pyUpper s.toList
  if up.length % 8 ≠ 0 then none
  else
    let body := up.takeWhile (fun c => c ≠ '=')
    if (up.dropWhile (fun c => c ≠ '=')).any (fun c => c ≠ '=') then none
    else do
      let vals ← body.mapM b32index
      let acc := vals.foldl (fun (p : Nat × Nat) v => (p.1 * 32 + v, p.2 + 5)) (0, 0)
      return (List.range (acc.2 / 8)).map fun i =>
        (acc.1 >>> (acc.2 - 8 * (i + 1))) &&& 255

/-- The state of a `TOTP` object from src/totp.py: the upper-cased Base32
secret, the digit width, the cache timestamp `__last_updated`, the counter,
the cached code `totp`, and the display fields `name` / `account`. -/
structure TOTPState where
  secret : String
  digits : Nat
  last_updated : ℚ
  counter : Int
  totp : String
  name : String
  account : String
deriving DecidableEq

/-- `TOTP.__is_old` (src/totp.py): true when at least 30 seconds have elapsed
since `__last_updated`. -/
def is_old (t : ℚ) (s : TOTPState) : Bool :=
  if 30 ≤ t - s.last_updated then true else false

/-- The body of `TOTP.__set_hotp` including its first two lines: pad the
stored secret with `'='` to a multiple of 8, decode it with the standard
Base32 routine, then run the HOTP computation. -/
def set_hotp_t (secret : String) (counter : Int) (digits : Nat) : Option String := do
  let padded := secret ++ String.mk (List.replicate ((8 - secret.length % 8) % 8) '=')
  let secretBytes ← b32decodeStd padded
  set_hotp secretBytes counter digits

/-- `TOTP.get_totp` (src/totp.py) at wall-clock time `t`: if the cached code
is old, rerun `__update_counter` (`counter = int(t // 30)`,
`last_updated = t`) and `__set_hotp`, then return the cached code.  `none`
models a propagated decode/pack exception. -/
def get_totp (t : ℚ) (s : TOTPState) : Option (String × TOTPState) :=
  if is_old t s then
    match set_hotp_t s.secret ⌊t / 30⌋ s.digits with
    | none => none
    | some code =>
        some (code, { s with counter := ⌊t / 30⌋, last_updated := t, totp := code })
  else
    some (s.totp, s)

/-- `TOTP.get_totp_fmt` (src/totp.py): refresh via `get_totp`, then return
`self.totp[:3] + " " + self.totp[3:]`. -/
def get_totp_fmt (t : ℚ) (s : TOTPState) : Option (String × TOTPState) :=
  match get_totp t s with
  | none => none
  | some (_, s') =>
      some (String.mk (s'.totp.toList.take 3) ++ " " ++ String.mk (s'.totp.toList.drop 3), s')

/-- The split the spec describes for `formattedCode()`: a single space after
the first `digits / 2` (integer division) characters. -/
def fmtSpecSplit (code : String) (digits : Nat) : String :=
  String.mk (code.toList.take (digits / 2)) ++ " " ++ String.mk (code.toList.drop (digits / 2))

/-- Python's `<` on strings: lexicographic comparison by code point. -/
def pyStrLt : List Char → List Char → Bool
  | [], [] => false
  | [], _ :: _ => true
  | _ :: _, [] => false
  | c :: cs, d :: ds =>
      if c.toNat < d.toNat then true
      else if d.toNat < c.toNat then false
      else pyStrLt cs ds

/-- `TOTP.__lt__` (src/totp.py): `self.name < other.name` on the raw `name`
fields. -/
def totp_lt (a b : TOTPState) : Bool :=
  pyStrLt a.name.toList b.name.toList

/-- Python's `str.lower()` restricted to ASCII: the case-normalization the
spec's ordering claim refers to. -/
def pyLower (s : String) : String :=
  String.mk (s.toList.map Char.toLower)

/-- The ordering the spec claims: by case-normalized name. -/
def specLtCaseNormalized (a b : TOTPState) : Bool :=
  pyStrLt (pyLower a.name).toList (pyLower b.name).toList

/-- The dynamic type of `SecretsFile.data` (src/secrets.py): a list of entry
strings until `encrypt_data` runs, after which the same field holds bytes. -/
inductive PyData where
  | ofList : List String → PyData
  | ofBytes : List Nat → PyData
deriving DecidableEq

/-- Quote character Python's `repr` picks for a string or bytes literal:
`'` unless a single quote occurs and no double quote does. -/
def pyReprQuote (hasSingle hasDouble : Bool) : Char :=
  if hasSingle && !hasDouble then '"' else '\''

/-- One character inside a Python `repr` literal with quote character `q`:
backslash and the quote are escaped, `\t` `\n` `\r` get two-character escapes,
printable ASCII is kept, anything else becomes `\xhh` (faithful for the ASCII
range this program's entries live in). -/
def pyEscapeChar (q c : Char) : List Char :=
  if c = '\\' then ['\\', '\\']
  else if c = q then ['\\', q]
  else if c = '\t' then ['\\', 't']
  else if c = '\n' then ['\\', 'n']
  else if c = '\x0d' then ['\\', 'r']
  else if 32 ≤ c.toNat && c.toNat < 127 then [c]
  else ['\\', 'x', (Nat.toDigits 16 (c.toNat / 16 % 16)).getLastD '0',
        (Nat.toDigits 16 (c.toNat % 16)).getLastD '0']

/-- Python's `repr` of a string (ASCII range). -/
def pyReprStr (s : String) : String :=
  let q := pyReprQuote (s.toList.contains '\'') (s.toList.contains '"')
  String.mk (q :: s.toList.flatMap (pyEscapeChar q) ++ [q])

/-- Python's `repr` (= `str`) of a bytes object (ASCII range). -/
def pyReprBytes (b : List Nat) : String :=
  let q := pyReprQuote (b.contains 39) (b.contains 34)
  String.mk ('b' :: q :: b.flatMap (fun x => pyEscapeChar q (Char.ofNat (x % 256))) ++ [q])

/-- Python's `str(self.data)` for the two shapes `data` takes:
`str` of a list is `'['` + comma-joined `repr`s + `']'`. -/
def pyStrData : PyData → String
  | .ofList l => "[" ++ String.intercalate ", " (l.map pyReprStr) ++ "]"
  | .ofBytes b => pyReprBytes b

/-- UTF-8 encoding of one character (Python's `str.encode("UTF-8")`). -/
def utf8Char (c : Char) : List Nat :=
  let n := c.toNat
  if n < 0x80 then [n]
  else if n < 0x800 then [0xC0 ||| (n >>> 6), 0x80 ||| (n &&& 63)]
  else if n < 0x10000 then
    [0xE0 ||| (n >>> 12), 0x80 ||| ((n >>> 6) &&& 63), 0x80 ||| (n &&& 63)]
  else
    [0xF0 ||| (n >>> 18), 0x80 ||| ((n >>> 12) &&& 63),
     0x80 ||| ((n >>> 6) &&& 63), 0x80 ||| (n &&& 63)]

/-- UTF-8 bytes of a string (Python's `str.encode("UTF-8")`). -/
def utf8Bytes (s : String) : List Nat :=
  s.toList.flatMap utf8Char

/-- The standard Base64 alphabet. -/
def B64_ALPHABET : List Char :=
  "ABCDEFGHIJKLMNOPQRSTUVWXYZabcdefghijklmnopqrstuvwxyz0123456789+/".toList

/-- Standard Base64 encoding (Python's `base64.b64encode`), three input bytes
per four output characters with `'='` padding. -/
def b64encode : List Nat → List Char
  | [] => []
  | [x] =>
      let bits := (x % 256) <<< 16
      [B64_ALPHABET.getD (bits >>> 18) 'A', B64_ALPHABET.getD ((bits >>> 12) &&& 63) 'A',
       '=', '=']
  | [x, y] =>
      let bits := ((x % 256) <<< 16) ||| ((y % 256) <<< 8)
      [B64_ALPHABET.getD (bits >>> 18) 'A', B64_ALPHABET.getD ((bits >>> 12) &&& 63) 'A',
       B64_ALPHABET.getD ((bits >>> 6) &&& 63) 'A', '=']
  | x :: y :: z :: rest =>
      let bits := ((x % 256) <<< 16) ||| ((y % 256) <<< 8) ||| (z % 256)
      B64_ALPHABET.getD (bits >>> 18) 'A' :: B64_ALPHABET.getD ((bits >>> 12) &&& 63) 'A' ::
      B64_ALPHABET.getD ((bits >>> 6) &&& 63) 'A' :: B64_ALPHABET.getD (bits &&& 63) 'A' ::
      b64encode rest

/-- The in-memory and on-file state of a `SecretsFile` (src/secrets.py):
`data`, the dirty flag `__updated`, and the contents of the backing file
(`none` when the file is absent). -/
structure SecretsState where
  data : PyData
  updated : Bool
  dbFile : Option String
deriving DecidableEq

/-- `SecretsFile.remove_entry` on the entry list: `list.remove` deletes the
first matching element and the dirty flag is set; the `ValueError` of a
missing entry is swallowed, leaving list and flag unchanged. -/
def remove_entry (x : String) (data : List String) (updated : Bool) :
    List String × Bool :=
  if x ∈ data then (data.erase x, true) else (data, updated)

/-- `SecretsFile.encrypt_data` (src/secrets.py), with the Fernet cipher of the
derived key abstracted as `enc` (an external library primitive): when the
dirty flag is set, `self.data = str(self.data).encode("UTF-8")`, the cipher
output is base64-encoded, and the write loop `for line in self.data:
file.write(encrypted_data_b64)` stores one copy of the encoded blob per byte
of `self.data` into the freshly truncated file. -/
def encrypt_data (enc : List Nat → List Nat) (s : SecretsState) : SecretsState :=
  if s.updated = false then s
  else
    let plain := utf8Bytes (pyStrData s.data)
    let blob := b64encode (enc plain)
    { data := PyData.ofBytes plain,
      updated := s.updated,
      dbFile := some (String.mk ((List.replicate plain.length blob).flatten)) }

/-- `SecretsFile.finalize` (src/secrets.py): run `encrypt_data` only when the
dirty flag is set (and `encrypt_data` checks the flag again itself). -/
def finalize (enc : List Nat → List Nat) (s : SecretsState) : SecretsState :=
  if s.updated = true then encrypt_data enc s else s

theorem and255_eq_of_lt {n : Nat} (h : n < 256) : n &&& 255 = n := by
  rw [Nat.and_pow_two_sub_one_eq_mod n 8]
  exact Nat.mod_eq_of_lt h

theorem getLastD_eq_getD (l : List Nat) (d : Nat) :
    l.getLastD d = l.getD (l.length - 1) d := by
  cases l with
  | nil => rfl
  | cons x xs =>
      rw [List.getLastD_eq_getLast?, List.getD_eq_getElem?_getD, List.getLast?_eq_getElem?]

theorem sha1_length (msg : List Nat) : (sha1 msg).length = 20 := by
  unfold sha1
  rcases hfold : (chunks64 (sha1Pad msg)).foldl sha1Compress
      (0x67452301, 0xEFCDAB89, 0x98BADCFE, 0x10325476, 0xC3D2E1F0) with
    ⟨h0, h1, h2, h3, h4⟩
  simp [wordToBytesBE]

theorem sha1_mem_lt (msg : List Nat) : ∀ b ∈ sha1 msg, b < 256 := by
  unfold sha1
  rcases hfold : (chunks64 (sha1Pad msg)).foldl sha1Compress
      (0x67452301, 0xEFCDAB89, 0x98BADCFE, 0x10325476, 0xC3D2E1F0) with
    ⟨h0, h1, h2, h3, h4⟩
  intro b hb
  simp [wordToBytesBE] at hb
  rcases hb with rfl | rfl | rfl | rfl | rfl | rfl | rfl | rfl | rfl | rfl | rfl | rfl |
    rfl | rfl | rfl | rfl | rfl | rfl | rfl | rfl <;>
    exact Nat.lt_succ_of_le Nat.and_le_right

theorem hmac_sha1_length (key msg : List Nat) : (hmac_sha1 key msg).length = 20 := by
  unfold hmac_sha1
  exact sha1_length _

theorem hmac_sha1_mem_lt (key msg : List Nat) : ∀ b ∈ hmac_sha1 key msg, b < 256 := by
  unfold hmac_sha1
  exact sha1_mem_lt _

theorem getD_lt_256 (l : List Nat) (hl : ∀ b ∈ l, b < 256) (i : Nat) :
    l.getD i 0 < 256 := by
  by_cases h : i < l.length
  · rw [List.getD_eq_getElem l 0 h]
    exact hl _ (List.getElem_mem h)
  · rw [List.getD_eq_default l 0 (by omega)]
    norm_num

theorem digitChar10_toNat {n : Nat} (h : n < 10) : (digitChar10 n).toNat = 48 + n := by
  interval_cases n <;> rfl

theorem pyStrNatAux_length_pos (n : Nat) : 1 ≤ (pyStrNatAux n).length := by
  rw [pyStrNatAux]
  split
  · simp
  · simp

theorem pyStrNatAux_length_le :
    ∀ n d : Nat, 1 ≤ d → n < 10 ^ d → (pyStrNatAux n).length ≤ d := by
  intro n
  induction n using Nat.strong_induction_on with
  | _ n ih =>
    intro d hd hn
    rw [pyStrNatAux]
    split
    · simpa using hd
    · rename_i h
      have hd2 : 2 ≤ d := by
        rcases Nat.lt_or_ge d 2 with h2 | h2
        · interval_cases d <;> simp_all <;> omega
        · exact h2
      have hdiv : n / 10 < 10 ^ (d - 1) := by
        rw [Nat.div_lt_iff_lt_mul (by norm_num)]
        calc n < 10 ^ d := hn
          _ = 10 ^ (d - 1) * 10 := by
              rw [← pow_succ]
              congr 1
              omega
      have := ih (n / 10) (Nat.div_lt_self (by omega) (by norm_num)) (d - 1) (by omega) hdiv
      simp only [List.length_append, List.length_cons, List.length_nil]
      omega

theorem parseFold_pyStrNatAux (n : Nat) :
    (pyStrNatAux n).foldl (fun a c => 10 * a + (c.toNat - 48)) 0 = n := by
  induction n using Nat.strong_induction_on with
  | _ n ih =>
    rw [pyStrNatAux]
    split
    · rename_i h
      simp [digitChar10_toNat h]
    · rename_i h
      rw [List.foldl_append]
      rw [ih (n / 10) (Nat.div_lt_self (by omega) (by norm_num))]
      simp [digitChar10_toNat (Nat.mod_lt n (by norm_num) : n % 10 < 10)]
      omega

theorem parseFold_replicate_zero (k : Nat) :
    (List.replicate k '0').foldl (fun a c => 10 * a + (c.toNat - 48)) 0 = 0 := by
  induction k with
  | zero => rfl
  | succ k ihk => simpa [List.replicate_succ] using ihk

/-- The formatting step shared by `TOTP.__set_hotp` (src/totp.py) and
`TOTP.__get_hotp` (src/main.py): `str(truncated % 10 ** digits).zfill(digits)`. -/
def formatCode (truncated digits : Nat) : String :=
  zfill (pyStrNat (truncated % 10 ^ digits)) digits

theorem formatCode_length {truncated digits : Nat} (hd : 1 ≤ digits) :
    (formatCode truncated digits).length = digits := by
  have hlt : truncated % 10 ^ digits < 10 ^ digits :=
    Nat.mod_lt _ (Nat.pos_pow_of_pos _ (by norm_num))
  have hle := pyStrNatAux_length_le (truncated % 10 ^ digits) digits hd hlt
  simp only [formatCode, zfill, pyStrNat, String.length_mk, List.length_append,
    List.length_replicate]
  simp only [String.length_mk] at *
  omega

theorem parseDec_formatCode (truncated digits : Nat) :
    parseDec (formatCode truncated digits) = truncated % 10 ^ digits := by
  simp only [formatCode, zfill, pyStrNat, parseDec, List.foldl_append]
  rw [parseFold_replicate_zero]
  exact parseFold_pyStrNatAux _

/-- Claim C4: for digits in 1..10 and 32-bit `truncated`, the formatting step
`str(truncated % 10 ** digits).zfill(digits)` yields a string of length
exactly `digits` that parses back to `truncated mod 10 ^ digits`; in
particular the emitted value is in `[0, 10 ^ digits)` and is left-padded
with `'0'`. -/
theorem formatCode_spec (truncated digits : Nat) (h1 : 1 ≤ digits)
    (h10 : digits ≤ 10) (ht : truncated < 2 ^ 32) :
    (formatCode truncated digits).length = digits ∧
    parseDec (formatCode truncated digits) = truncated % 10 ^ digits ∧
    truncated % 10 ^ digits < 10 ^ digits := by
  refine ⟨formatCode_length h1, parseDec_formatCode _ _, ?_⟩
  exact Nat.mod_lt _ (Nat.pos_pow_of_pos _ (by norm_num))

/-- Witness for C4 at `truncated = 1357872921`, `digits = 6`. -/
theorem formatCode_spec_witness :
    (1 ≤ 6 ∧ 6 ≤ 10 ∧ 1357872921 < 2 ^ 32) ∧
    ((formatCode 1357872921 6).length = 6 ∧
      parseDec (formatCode 1357872921 6) = 1357872921 % 10 ^ 6 ∧
      1357872921 % 10 ^ 6 < 10 ^ 6) :=
  ⟨by norm_num, formatCode_spec 1357872921 6 (by norm_num) (by norm_num) (by norm_num)⟩

/-- Claim C1: for every secret byte string, non-negative 64-bit counter, and
positive digits, `TOTP.__set_hotp`'s computation from the secret bytes on is
exactly the claim's algorithm — 8 big-endian counter bytes, HMAC-SHA1 digest,
`offset = digest[19] & 0x0F`, the four-byte truncation, and the decimal string
of `truncated mod 10 ^ digits` padded to exactly `digits` characters. -/
theorem hotp_matches_spec (secretBytes : List Nat) (counter : Int) (digits : Nat)
    (hc0 : 0 ≤ counter) (hc64 : counter < 2 ^ 64) (hd : 1 ≤ digits) :
    set_hotp secretBytes counter digits = some (hotpSpec secretBytes counter digits) ∧
    (hotpSpec secretBytes counter digits).length = digits := by
  have hneg : ¬ counter < 0 := by omega
  have hlen : (hmac_sha1 secretBytes (natToBytesBE 8 counter.toNat)).length = 20 :=
    hmac_sha1_length _ _
  have hmask : ∀ i, (hmac_sha1 secretBytes (natToBytesBE 8 counter.toNat)).getD i 0 &&& 255
      = (hmac_sha1 secretBytes (natToBytesBE 8 counter.toNat)).getD i 0 := fun i =>
    and255_eq_of_lt (getD_lt_256 _ (hmac_sha1_mem_lt _ _) i)
  have hlast : (hmac_sha1 secretBytes (natToBytesBE 8 counter.toNat)).getLastD 0
      = (hmac_sha1 secretBytes (natToBytesBE 8 counter.toNat)).getD 19 0 := by
    rw [getLastD_eq_getD, hlen]
  constructor
  · simp only [set_hotp, custom_pack_q, if_neg hneg, if_pos hc64, hotpSpec]
    rw [hlast]
    simp only [hmask]
  · have hgen : ∀ x : Nat, (zfill (pyStrNat (x % 10 ^ digits)) digits).length = digits :=
      fun x => by simpa [formatCode] using @formatCode_length x digits hd
    simp only [hotpSpec]
    exact hgen _

/-- Witness for C1: the RFC 4226 test key `b"12345678901234567890"` at
counter 0, digits 6, where the code evaluates to `"755224"`. -/
theorem hotp_matches_spec_witness :
    ((0 : Int) ≤ 0 ∧ (0 : Int) < 2 ^ 64 ∧ 1 ≤ 6) ∧
    (set_hotp [49, 50, 51, 52, 53, 54, 55, 56, 57, 48,
               49, 50, 51, 52, 53, 54, 55, 56, 57, 48] 0 6 =
      some (hotpSpec [49, 50, 51, 52, 53, 54, 55, 56, 57, 48,
                      49, 50, 51, 52, 53, 54, 55, 56, 57, 48] 0 6) ∧
     (hotpSpec [49, 50, 51, 52, 53, 54, 55, 56, 57, 48,
                49, 50, 51, 52, 53, 54, 55, 56, 57, 48] 0 6).length = 6) :=
  ⟨by norm_num,
   hotp_matches_spec [49, 50, 51, 52, 53, 54, 55, 56, 57, 48,
                      49, 50, 51, 52, 53, 54, 55, 56, 57, 48] 0 6
     (by norm_num) (by norm_num) (by norm_num)⟩

theorem get_totp_totp_eq {t : ℚ} {s : TOTPState} {code : String} {s' : TOTPState}
    (h : get_totp t s = some (code, s')) : s'.totp = code := by
  unfold get_totp at h
  split at h
  · rcases hset : set_hotp_t s.secret ⌊t / 30⌋ s.digits with _ | c
    · rw [hset] at h
      simp at h
    · rw [hset] at h
      simp at h
      rw [← h.1, ← h.2]
  · simp at h
    rw [← h.1, ← h.2]

/-- Claim C5: the cached code is stale exactly when wall-clock time has
advanced by at least 30 seconds since `__last_updated`; within the window
`get_totp` returns the identical cached string with an unchanged state (no
recomputation); at exactly +30 seconds the code is recomputed from a counter
one greater than before; and the counter never decreases for a
non-decreasing clock. -/
theorem totp_cache_spec (s : TOTPState) (t₀ t₁ t₂ : ℚ)
    (hs : s.last_updated = t₀) (hcnt : s.counter = ⌊t₀ / 30⌋)
    (h₁l : 0 ≤ t₁ - t₀) (h₁u : t₁ - t₀ < 30)
    (h₂l : 0 ≤ t₂ - t₀) (h₂u : t₂ - t₀ < 30) :
    (∀ t : ℚ, is_old t s = true ↔ 30 ≤ t - t₀)
    ∧ get_totp t₁ s = some (s.totp, s)
    ∧ get_totp t₂ s = some (s.totp, s)
    ∧ (∀ code s', get_totp (t₀ + 30) s = some (code, s') →
        s'.counter = s.counter + 1 ∧
        set_hotp_t s.secret (s.counter + 1) s.digits = some code)
    ∧ (∀ (t : ℚ) code s', t₀ ≤ t → get_totp t s = some (code, s') →
        s.counter ≤ s'.counter) := by
  have hiff : ∀ t : ℚ, is_old t s = true ↔ 30 ≤ t - t₀ := by
    intro t
    simp [is_old, hs]
  have hfresh : ∀ t : ℚ, t - t₀ < 30 → get_totp t s = some (s.totp, s) := by
    intro t ht
    have : is_old t s = false := by
      simp [is_old, hs]
      linarith
    simp [get_totp, this]
  have hfloor : (⌊(t₀ + 30) / 30⌋ : ℤ) = ⌊t₀ / 30⌋ + 1 := by
    rw [show (t₀ + 30) / 30 = t₀ / 30 + 1 by ring]
    exact Int.floor_add_one _
  refine ⟨hiff, hfresh t₁ h₁u, hfresh t₂ h₂u, ?_, ?_⟩
  · intro code s' h
    have hold : is_old (t₀ + 30) s = true := by
      simp [is_old, hs]
    rw [get_totp, hold] at h
    simp only [if_true] at h
    rcases hset : set_hotp_t s.secret ⌊(t₀ + 30) / 30⌋ s.digits with _ | c
    · rw [hset] at h
      simp at h
    · rw [hset] at h
      simp at h
      refine ⟨?_, ?_⟩
      · rw [← h.2, hcnt]
        simpa using hfloor
      · rw [hcnt, ← hfloor, hset, h.1]
  · intro t code s' ht h
    rw [get_totp] at h
    split at h
    · rcases hset : set_hotp_t s.secret ⌊t / 30⌋ s.digits with _ | c
      · rw [hset] at h
        simp at h
      · rw [hset] at h
        simp at h
        rw [← h.2, hcnt]
        simp only []
        apply Int.floor_le_floor
        exact div_le_div_of_nonneg_right ht (by norm_num)
    · simp at h
      rw [← h.2]

/-- Witness for C5: a freshly-updated state at time 0, queried at times 5 and
25 (same window) and at exactly +30 seconds. -/
theorem totp_cache_spec_witness :
    (∀ t : ℚ, is_old t (⟨"JBSWY3DP", 6, 0, 0, "000000", "n", "a"⟩ : TOTPState) = true ↔
        30 ≤ t - 0)
    ∧ get_totp 5 (⟨"JBSWY3DP", 6, 0, 0, "000000", "n", "a"⟩ : TOTPState) =
        some ("000000", ⟨"JBSWY3DP", 6, 0, 0, "000000", "n", "a"⟩)
    ∧ get_totp 25 (⟨"JBSWY3DP", 6, 0, 0, "000000", "n", "a"⟩ : TOTPState) =
        some ("000000", ⟨"JBSWY3DP", 6, 0, 0, "000000", "n", "a"⟩)
    ∧ (∀ code s', get_totp (0 + 30) (⟨"JBSWY3DP", 6, 0, 0, "000000", "n", "a"⟩ : TOTPState) =
          some (code, s') →
        s'.counter = (⟨"JBSWY3DP", 6, 0, 0, "000000", "n", "a"⟩ : TOTPState).counter + 1 ∧
        set_hotp_t "JBSWY3DP" ((⟨"JBSWY3DP", 6, 0, 0, "000000", "n", "a"⟩ : TOTPState).counter + 1) 6 =
          some code)
    ∧ (∀ (t : ℚ) code s', 0 ≤ t →
        get_totp t (⟨"JBSWY3DP", 6, 0, 0, "000000", "n", "a"⟩ : TOTPState) = some (code, s') →
        (⟨"JBSWY3DP", 6, 0, 0, "000000", "n", "a"⟩ : TOTPState).counter ≤ s'.counter) :=
  totp_cache_spec ⟨"JBSWY3DP", 6, 0, 0, "000000", "n", "a"⟩ 0 5 25 rfl (by norm_num)
    (by norm_num) (by norm_num) (by norm_num) (by norm_num)

/-- Counterexample for C6: an 8-digit instance.  `get_totp_fmt` splits the
code after 3 characters (`self.totp[:3]`), not after `digits / 2 = 4`. -/
theorem get_totp_fmt_counterexample :
    get_totp_fmt 0 (⟨"S", 8, 0, 0, "12345678", "n", "a"⟩ : TOTPState) =
      some ("123 45678", ⟨"S", 8, 0, 0, "12345678", "n", "a"⟩)
    ∧ "123 45678" ≠ fmtSpecSplit "12345678" 8 := by
  have hold : is_old 0 (⟨"S", 8, 0, 0, "12345678", "n", "a"⟩ : TOTPState) = false := by
    norm_num [is_old]
  constructor
  · simp [get_totp_fmt, get_totp, hold]
  · decide

/-- Claim C6, amended: `get_totp_fmt` returns the current code split by a
single space after the first 3 characters (the first half of the default
6-digit width) regardless of `digits`; this coincides with `digits / 2` only
for 6- or 7-digit codes. -/
theorem get_totp_fmt_splits_at_three (t : ℚ) (s : TOTPState) (code : String)
    (s' : TOTPState) (h : get_totp t s = some (code, s')) :
    get_totp_fmt t s =
      some (String.mk (code.toList.take 3) ++ " " ++ String.mk (code.toList.drop 3), s') := by
  have hc := get_totp_totp_eq h
  simp only [get_totp_fmt, h, hc]

/-- Witness for the amended C6 at a cached 6-digit code. -/
theorem get_totp_fmt_splits_witness :
    get_totp_fmt 0 (⟨"S", 6, 0, 0, "755224", "n", "a"⟩ : TOTPState) =
      some (String.mk ("755224".toList.take 3) ++ " " ++ String.mk ("755224".toList.drop 3),
        (⟨"S", 6, 0, 0, "755224", "n", "a"⟩ : TOTPState)) :=
  get_totp_fmt_splits_at_three 0 _ "755224" _ (by norm_num [get_totp, is_old])

/-- Counterexample for C7: with names `"B"` and `"a"`, `__lt__` holds (Python
compares raw code points with uppercase before lowercase) while the
case-normalized comparison the claim states does not. -/
theorem totp_lt_counterexample :
    totp_lt (⟨"", 6, 0, 0, "", "B", ""⟩ : TOTPState) ⟨"", 6, 0, 0, "", "a", ""⟩ = true
    ∧ specLtCaseNormalized (⟨"", 6, 0, 0, "", "B", ""⟩ : TOTPState)
        ⟨"", 6, 0, 0, "", "a", ""⟩ = false := by
  constructor
  · decide
  · decide

/-- Claim C7, amended: the `__lt__` comparator orders TOTP entities by the
*raw* `name` string in code-point lexicographic order (no case
normalization), and it depends on no field other than `name`. -/
theorem totp_lt_raw_name (a b : TOTPState) :
    totp_lt a b = pyStrLt a.name.toList b.name.toList ∧
    (∀ a' b' : TOTPState, a'.name = a.name → b'.name = b.name →
      totp_lt a' b' = totp_lt a b) := by
  refine ⟨rfl, ?_⟩
  intro a' b' h1 h2
  simp [totp_lt, h1, h2]

/-- Claim C8: `remove_entry` removes the first entry equal to the identifier
and sets the dirty flag when present; with no match it raises no error and
leaves both the list and the flag unchanged. -/
theorem remove_entry_spec (x : String) (data : List String) (updated : Bool) :
    (x ∈ data →
      remove_entry x data updated = (data.erase x, true) ∧
      ∃ p q, data = p ++ x :: q ∧ x ∉ p ∧ (remove_entry x data updated).1 = p ++ q)
    ∧ (x ∉ data → remove_entry x data updated = (data, updated)) := by
  constructor
  · intro hx
    refine ⟨by simp [remove_entry, hx], ?_⟩
    obtain ⟨p, q, hnp, hl, he⟩ := List.exists_erase_eq hx
    exact ⟨p, q, hl, hnp, by simp [remove_entry, hx, he]⟩
  · intro hx
    simp [remove_entry, hx]

/-- Witness for C8: a present entry is removed (first occurrence only) and
the flag set; an absent entry changes nothing. -/
theorem remove_entry_spec_witness :
    remove_entry "a" ["b", "a", "c"] false = (["b", "c"], true) ∧
    remove_entry "z" ["b"] false = (["b"], false) := by
  constructor
  · exact (((remove_entry_spec "a" ["b", "a", "c"] false).1 (by decide)).1).trans (by decide)
  · exact (remove_entry_spec "z" ["b"] false).2 (by decide)

theorem chunks8_flatten (l : List Char) : (chunks8 l).flatten = l := by
  induction l using chunks8.induct with
  | case1 => rfl
  | case2 c1 c2 c3 c4 c5 c6 c7 c8 rest ih =>
      simp [chunks8, ih]
  | case3 l h1 h2 =>
      simp [chunks8]

theorem b32chunkBitsAux_none {c : Char} (hne : c ≠ '=') (hidx : b32index c = none) :
    ∀ (ch : List Char) (bits : Nat), c ∈ ch → b32chunkBitsAux ch bits = none := by
  intro ch
  induction ch with
  | nil =>
      intro bits h
      simp at h
  | cons d ds ih =>
      intro bits h
      rcases List.mem_cons.mp h with rfl | hmem
      · simp only [b32chunkBitsAux, if_neg hne, hidx]
      · by_cases hd : d = '='
        · simp only [b32chunkBitsAux, if_pos hd]
          exact ih _ hmem
        · simp only [b32chunkBitsAux, if_neg hd]
          cases hidx2 : b32index d with
          | none => rfl
          | some v => exact ih _ hmem

theorem b32decodeChunks_none {chs : List (List Char)} {ch : List Char}
    (hch : ch ∈ chs) (hnone : b32chunkBits ch = none) :
    b32decodeChunks chs = none := by
  induction chs with
  | nil => simp at hch
  | cons a rest ih =>
      rcases List.mem_cons.mp hch with rfl | hmem
      · simp [b32decodeChunks, hnone]
      · rw [b32decodeChunks]
        cases ha : b32chunkBits a with
        | none => rfl
        | some bits => rw [ih hmem]

/-- Counterexample for C9: `"A\n"` contains `'\n'`, which is neither in the
Base32 alphabet nor `'='`, yet `__b32decode` strips it and returns bytes
(`[35]`) instead of failing. -/
theorem b32decode_invalid_char_counterexample :
    ('\n' ∈ "A\n".toList ∧ '\n' ≠ '=' ∧ b32index '\n' = none) ∧
    b32decode_main "A\n" = some [35] := by
  constructor
  · decide
  · decide

/-- Claim C9, amended: for every ASCII input string (Base32 secrets are
ASCII; on ASCII the model's `upper`/`strip` agree exactly with Python's),
`__b32decode` fails with a decode error whenever a character that is neither
in the 32-symbol alphabet (after upper-casing) nor `'='` survives the
`str.strip()` call — leading and trailing whitespace (including `\x1c`–`\x1f`)
is stripped and tolerated, every other invalid character is not. -/
theorem b32decode_fails_on_invalid (s : String) (c : Char)
    (hascii : ∀ d ∈ s.toList, d.toNat < 128)
    (hc : c ∈ pyStrip (pyUpper s.toList)) (hne : c ≠ '=')
    (hidx : b32index c = none) :
    b32decode_main s = none := by
  have hpad : c ∈ pyStrip (pyUpper s.toList) ++
      List.replicate ((8 - (pyStrip (pyUpper s.toList)).length % 8) % 8) '=' :=
    List.mem_append_left _ hc
  rw [← chunks8_flatten (pyStrip (pyUpper s.toList) ++
      List.replicate ((8 - (pyStrip (pyUpper s.toList)).length % 8) % 8) '=')] at hpad
  obtain ⟨ch, hch, hcch⟩ := List.mem_flatten.mp hpad
  have : b32chunkBits ch = none := b32chunkBitsAux_none hne hidx ch 0 hcch
  simp only [b32decode_main]
  exact b32decodeChunks_none hch this

/-- Witness for the amended C9: `"0A"` contains `'0'`, which survives
stripping and is not in the alphabet, so decoding fails. -/
theorem b32decode_fails_on_invalid_witness : b32decode_main "0A" = none :=
  b32decode_fails_on_invalid "0A" '0' (by decide) (by decide) (by decide) (by decide)

/-- Claim C3 (code bug): the decoder does not invert the reference encoder.
`b"f"` encodes to `"MY======"`, but `__b32decode` returns `[1, 182]` — the
`bits += 5` padding arithmetic and the skip-zero-bytes emission loop corrupt
the value — instead of `[102]`. -/
theorem b32_roundtrip_fails :
    b32encodeRef [102] = "MY======" ∧
    b32decode_main (b32encodeRef [102]) = some [1, 182] ∧
    some [1, 182] ≠ some [102] := by
  refine ⟨by decide, by decide, by decide⟩

theorem utf8Bytes_append (a b : String) :
    utf8Bytes (a ++ b) = utf8Bytes a ++ utf8Bytes b := by
  simp only [utf8Bytes, String.toList, String.data_append, List.flatMap_append]

theorem utf8Bytes_list_starts_with_bracket (l : List String) :
    ∃ rest, utf8Bytes (pyStrData (.ofList l)) = 91 :: rest := by
  refine ⟨utf8Bytes (String.intercalate ", " (l.map pyReprStr)) ++ utf8Bytes "]", ?_⟩
  simp only [pyStrData]
  rw [utf8Bytes_append, utf8Bytes_append]
  rfl

theorem utf8Bytes_bytes_starts_with_b (b : List Nat) :
    ∃ rest, utf8Bytes (pyStrData (.ofBytes b)) = 98 :: rest := by
  simp only [pyStrData, pyReprBytes, utf8Bytes, String.toList]
  exact ⟨_, rfl⟩

/-- Claim C10: encrypting a dirty store is destructive — afterwards `data`
holds the UTF-8 bytes of `str(entries)` rather than the entry list, the
dirty flag is still set, and a second `finalize` re-serializes that byte
blob's own `repr` instead of the original list, so finalize is not
idempotent on the in-memory state. -/
theorem encrypt_data_destroys_entries (enc : List Nat → List Nat)
    (entries : List String) (f : Option String) :
    (encrypt_data enc ⟨.ofList entries, true, f⟩).data =
      .ofBytes (utf8Bytes (pyStrData (.ofList entries)))
    ∧ (encrypt_data enc ⟨.ofList entries, true, f⟩).updated = true
    ∧ (finalize enc (encrypt_data enc ⟨.ofList entries, true, f⟩)).data =
        .ofBytes (utf8Bytes (pyStrData (.ofBytes (utf8Bytes (pyStrData (.ofList entries))))))
    ∧ (finalize enc (encrypt_data enc ⟨.ofList entries, true, f⟩)).data ≠
        (encrypt_data enc ⟨.ofList entries, true, f⟩).data := by
  refine ⟨by simp [encrypt_data], by simp [encrypt_data], by simp [finalize, encrypt_data], ?_⟩
  simp only [finalize, encrypt_data, Bool.true_eq_false, if_false, if_true]
  obtain ⟨r1, h91⟩ := utf8Bytes_list_starts_with_bracket entries
  obtain ⟨r2, h98⟩ := utf8Bytes_bytes_starts_with_b
    (utf8Bytes (pyStrData (.ofList entries)))
  intro hEq
  have := PyData.ofBytes.inj hEq
  rw [h98, h91] at this
  exact absurd (List.head_eq_of_cons_eq this) (by norm_num)

/-- Witness for the amended C7: concrete entities, including two that differ
in every field except `name` and compare identically. -/
theorem totp_lt_raw_name_witness :
    totp_lt (⟨"x", 6, 0, 0, "1", "Alice", "p"⟩ : TOTPState) ⟨"y", 8, 1, 2, "2", "bob", "q"⟩ =
      pyStrLt "Alice".toList "bob".toList ∧
    totp_lt (⟨"z", 9, 3, 4, "3", "Alice", "r"⟩ : TOTPState) ⟨"w", 7, 5, 6, "4", "bob", "s"⟩ =
      totp_lt (⟨"x", 6, 0, 0, "1", "Alice", "p"⟩ : TOTPState) ⟨"y", 8, 1, 2, "2", "bob", "q"⟩ :=
  ⟨(totp_lt_raw_name ⟨"x", 6, 0, 0, "1", "Alice", "p"⟩ ⟨"y", 8, 1, 2, "2", "bob", "q"⟩).1,
   (totp_lt_raw_name ⟨"x", 6, 0, 0, "1", "Alice", "p"⟩ ⟨"y", 8, 1, 2, "2", "bob", "q"⟩).2
     ⟨"z", 9, 3, 4, "3", "Alice", "r"⟩ ⟨"w", 7, 5, 6, "4", "bob", "s"⟩ rfl rfl⟩

/-- Witness for C10 at `entries = ["a"]` with the identity stand-in cipher. -/
theorem encrypt_data_destroys_entries_witness :
    (encrypt_data (fun b => b) ⟨.ofList ["a"], true, none⟩).data =
      .ofBytes (utf8Bytes (pyStrData (.ofList ["a"])))
    ∧ (encrypt_data (fun b => b) ⟨.ofList ["a"], true, none⟩).updated = true
    ∧ (finalize (fun b => b) (encrypt_data (fun b => b) ⟨.ofList ["a"], true, none⟩)).data =
        .ofBytes (utf8Bytes (pyStrData (.ofBytes (utf8Bytes (pyStrData (.ofList ["a"]))))))
    ∧ (finalize (fun b => b) (encrypt_data (fun b => b) ⟨.ofList ["a"], true, none⟩)).data ≠
        (encrypt_data (fun b => b) ⟨.ofList ["a"], true, none⟩).data :=
  encrypt_data_destroys_entries (fun b => b) ["a"] none
